import Mathlib

/-!
Verification development for the rust-fil-proofs sealing / attestation API.

The Rust sources are shallowly embedded: byte buffers become `List Nat`
(each element `< 256` where it matters), fallible operations return an
`Outcome` value whose `panic` constructor models a Rust panic, and the
filesystem and memory-mapping environment is passed explicitly.  Code of
the repository that is outside the sampled sources (the fr32 padding
crate, the stacked-DRG encoder, PoSt and aggregation engines) is modelled
from the specification; each such definition carries a doc comment
starting with `Modelled from the spec:`.
-/

/-- Result type of the embedded Rust functions.  `ok` is `Ok`, `error` is a
returned `anyhow::Error`, and `panic` models a Rust panic (for example an
out-of-bounds slice index or a failed `expect`). -/
inductive Outcome (α : Type) where
  | ok (a : α)
  | error (e : String)
  | panic (msg : String)
deriving DecidableEq

/-- True exactly on the `panic` constructor. -/
def Outcome.isPanic {α : Type} : Outcome α → Bool
  | .panic _ => true
  | _ => false

/-- True exactly on the `ok` constructor. -/
def Outcome.isOk {α : Type} : Outcome α → Bool
  | .ok _ => true
  | _ => false

/-- Pairing combinator standing in for the opaque hash functions (the spec
lists Poseidon and SHA-256 as out-of-scope collaborators consumed as an
opaque `Hasher`).  Only determinism is relied upon. -/
def mix (a b : Nat) : Nat := (a + b) * (a + b + 1) / 2 + b

/-- Conversion of an unpadded byte amount to the corresponding padded byte
amount.  Modelled from the spec: bit padding aligns bytes at every 127
bytes (`constants.rs`), each 127-byte unpadded block occupying 128 padded
bytes; the conversion itself lives in the fr32 crate outside the sampled
sources. -/
def toPadded (x : Nat) : Nat := x + x / 127

/-- Conversion of a padded byte amount back to the unpadded amount.
Modelled from the spec: inverse of `toPadded` on 127-byte aligned
amounts; lives in the fr32 crate outside the sampled sources. -/
def toUnpadded (x : Nat) : Nat := x - x / 128

/-- `MINIMUM_RESERVED_BYTES_FOR_PIECE_IN_FULLY_ALIGNED_SECTOR`
(`constants.rs`): `4 * NODE_SIZE - 1 = 127`. -/
def minimumPieceSize : Nat := 4 * 32 - 1

/-- Fuel-indexed halving loop behind `isPow2`. -/
def isPow2Go : Nat → Nat → Bool
  | _, 0 => false
  | _, 1 => true
  | 0, _ => false
  | fuel + 1, n + 2 => (n + 2) % 2 == 0 && isPow2Go fuel ((n + 2) / 2)

/-- Power-of-two test, extensionally the `u64::is_power_of_two` check used
by `ensure_piece_size`. -/
def isPow2 (n : Nat) : Bool := isPow2Go n n

theorem isPow2Go_iff :
    ∀ fuel n, n ≤ fuel → (isPow2Go fuel n = true ↔ ∃ k, n = 2 ^ k) := by
  intro fuel
  induction fuel with
  | zero =>
    intro n hn
    have hzero : n = 0 := by omega
    subst hzero
    simp only [isPow2Go, Bool.false_eq_true, false_iff]
    rintro ⟨k, hk⟩
    have := Nat.pos_pow_of_pos k (show 0 < 2 by norm_num)
    omega
  | succ fuel ih =>
    intro n hn
    match n with
    | 0 =>
      simp only [isPow2Go, Bool.false_eq_true, false_iff]
      rintro ⟨k, hk⟩
      have := Nat.pos_pow_of_pos k (show 0 < 2 by norm_num)
      omega
    | 1 =>
      simp only [isPow2Go, true_iff]
      exact ⟨0, rfl⟩
    | m + 2 =>
      rw [isPow2Go, Bool.and_eq_true, beq_iff_eq]
      rw [ih ((m + 2) / 2) (by omega)]
      constructor
      · rintro ⟨hmod, j, hj⟩
        refine ⟨j + 1, ?_⟩
        have h2 : m + 2 = 2 * ((m + 2) / 2) := by omega
        rw [h2, hj, pow_succ]
        ring
      · rintro ⟨k, hk⟩
        match k with
        | 0 =>
          rw [pow_zero] at hk
          omega
        | k + 1 =>
          rw [pow_succ] at hk
          have hpos := Nat.pos_pow_of_pos k (show 0 < 2 by norm_num)
          constructor
          · omega
          · exact ⟨k, by omega⟩

theorem isPow2_iff (n : Nat) : isPow2 n = true ↔ ∃ k, n = 2 ^ k :=
  isPow2Go_iff n n (Nat.le_refl n)

/-!
## `storage-proofs-core/src/data.rs` — the `Data` buffer

`Data<'a>` wraps content that is either an in-memory slice, a memory map,
or absent with an optional backing path.  Byte content is `List Nat`; the
memory-mapping environment is an explicit `MmapEnv`.
-/

/-- `enum RawData` from `data.rs`: an in-memory slice or a memory map. -/
inductive RawData where
  | slice (content : List Nat)
  | mmapped (content : List Nat)
deriving DecidableEq

/-- `Deref` for `RawData`: the underlying bytes. -/
def RawData.content : RawData → List Nat
  | .slice c => c
  | .mmapped c => c

/-- `struct Data` from `data.rs`. -/
structure DataBuf where
  raw : Option RawData
  path : Option String
  len : Nat
deriving DecidableEq

/-- The memory-mapping environment seen by `data.rs`: `openMap` models
`OpenOptions::open` followed by `MmapOptions::map_mut` (whole file),
`openMapLen` the variant with an explicit `.len(len)`; `none` is an I/O
failure, `some c` yields observed content `c`. -/
structure MmapEnv where
  openMap : String → Option (List Nat)
  openMapLen : String → Nat → Option (List Nat)

/-- `Data::from_path` (`data.rs:85`): placeholder bound to a path, no I/O. -/
def dataFromPath (p : String) : DataBuf := { raw := none, path := some p, len := 0 }

/-- `impl From<&mut [u8]> for Data` (`data.rs:44`). -/
def dataFromSlice (s : List Nat) : DataBuf :=
  { raw := some (.slice s), path := none, len := s.length }

/-- `impl From<(MmapMut, PathBuf)> for Data` (`data.rs:55`). -/
def dataFromMmap (c : List Nat) (p : String) : DataBuf :=
  { raw := some (.mmapped c), path := some p, len := c.length }

/-- `Data::new` (`data.rs:93`). -/
def dataNew (s : List Nat) (p : String) : DataBuf :=
  { raw := some (.slice s), path := some p, len := s.length }

/-- `Data::empty` (`data.rs:103`). -/
def dataEmpty : DataBuf := { raw := none, path := none, len := 0 }

/-- `Data::len` (`data.rs:111`). -/
def dataLen (d : DataBuf) : Nat := d.len

/-- `impl AsRef<[u8]> for Data` (`data.rs:66`): panics when the content is
absent. -/
def dataAsRef (d : DataBuf) : Outcome (List Nat) :=
  match d.raw with
  | some raw => .ok raw.content
  | none => .panic "figure it out"

/-- `impl AsMut<[u8]> for Data` (`data.rs:75`): panics when the content is
absent. -/
def dataAsMut (d : DataBuf) : Outcome (List Nat) :=
  match d.raw with
  | some raw => .ok raw.content
  | none => .panic "figure it out"

/-- `Data::ensure_data` (`data.rs:120`): no-op when content is present;
otherwise requires a bound path, opens and maps it, and records the
observed length. -/
def ensureData (env : MmapEnv) (d : DataBuf) : Outcome DataBuf :=
  match d.raw with
  | some _ => .ok d
  | none =>
    match d.path with
    | none => .error "Missing path"
    | some p =>
      match env.openMap p with
      | none => .error "could not open or mmap path"
      | some content =>
        .ok { d with len := content.length, raw := some (.mmapped content) }

/-- `Data::ensure_data_of_len` (`data.rs:148`): like `ensureData` but maps
with an explicit length and fails when the observed length differs. -/
def ensureDataOfLen (env : MmapEnv) (d : DataBuf) (len : Nat) : Outcome DataBuf :=
  match d.raw with
  | some _ => .ok d
  | none =>
    match d.path with
    | none => .error "Missing path"
    | some p =>
      match env.openMapLen p len with
      | none => .error "could not open or mmap path"
      | some content =>
        if len = content.length then
          .ok { d with len := content.length, raw := some (.mmapped content) }
        else
          .error "data length mismatch"

/-- `Data::drop_data` (`data.rs:179`): drops the in-memory representation
only when a backing path exists (otherwise the data would be
unrecoverable and is kept). -/
def dropData (d : DataBuf) : DataBuf :=
  match d.path with
  | some _ => { d with raw := none }
  | none => d

/-- The `len()`-consistency invariant of the spec: whenever content is
materialized, `len` equals its length. -/
def lenConsistent (d : DataBuf) : Prop :=
  ∀ r, d.raw = some r → d.len = r.content.length

/-- **C8**: `ensure_data` and `ensure_data_of_len` are no-ops when content
is already present (the state is returned unchanged); when content is
absent and no backing path is bound they fail with the missing-path
error; and `ensure_data_of_len len` fails with the length-mismatch error
when the observed data length differs from `len`. -/
theorem claim_C8_ensure_data (env : MmapEnv) (d : DataBuf) (len : Nat) :
    (d.raw.isSome = true →
      ensureData env d = .ok d ∧ ensureDataOfLen env d len = .ok d)
    ∧ (d.raw = none → d.path = none →
      ensureData env d = .error "Missing path"
        ∧ ensureDataOfLen env d len = .error "Missing path")
    ∧ (∀ p content, d.raw = none → d.path = some p →
      env.openMapLen p len = some content → content.length ≠ len →
      ensureDataOfLen env d len = .error "data length mismatch") := by
  refine ⟨?_, ?_, ?_⟩
  · intro h
    match hr : d.raw with
    | some r => constructor <;> simp [ensureData, ensureDataOfLen, hr]
    | none => rw [hr] at h; simp at h
  · intro hr hp
    constructor <;> simp [ensureData, ensureDataOfLen, hr, hp]
  · intro p content hr hp hm hlen
    simp only [ensureDataOfLen, hr, hp, hm]
    rw [if_neg (fun h => hlen h.symm)]

/-- Witness for C8 at concrete inputs: a buffer bound to path `p` whose
mapped length (2) differs from the requested length (3) yields the
length-mismatch error. -/
theorem claim_C8_ensure_data_witness :
    ensureDataOfLen ⟨fun _ => none, fun _ _ => some [0, 0]⟩ (dataFromPath "p") 3 =
      .error "data length mismatch" :=
  (claim_C8_ensure_data ⟨fun _ => none, fun _ _ => some [0, 0]⟩
    (dataFromPath "p") 3).2.2 "p" [0, 0] rfl rfl rfl (by decide)

/-- **C9**: for a `Data` value whose content is absent, `as_ref` / `as_mut`
fail cleanly (the embedded functions take the panic branch, returning no
bytes) rather than yielding stale or zeroed memory; and `len()` is always
consistent with the last materialized state: every constructor and every
successful materialization establishes the `lenConsistent` invariant,
`as_ref` on a materialized buffer returns content of exactly `len()`
bytes, and the non-materializing operations (`ensure_data` on present
content, `drop_data`) leave `len` unchanged. -/
theorem claim_C9_len_consistency (env : MmapEnv) (d : DataBuf) (len : Nat)
    (s : List Nat) (p : String) :
    (d.raw = none →
      dataAsRef d = .panic "figure it out" ∧ dataAsMut d = .panic "figure it out")
    ∧ (lenConsistent d → ∀ c, dataAsRef d = .ok c → dataLen d = c.length)
    ∧ lenConsistent (dataFromPath p)
    ∧ (lenConsistent (dataFromSlice s) ∧ (dataFromSlice s).len = s.length)
    ∧ (lenConsistent (dataFromMmap s p) ∧ (dataFromMmap s p).len = s.length)
    ∧ lenConsistent (dataNew s p)
    ∧ lenConsistent dataEmpty
    ∧ (lenConsistent d → ∀ d2, ensureData env d = .ok d2 → lenConsistent d2)
    ∧ (lenConsistent d → ∀ d2, ensureDataOfLen env d len = .ok d2 → lenConsistent d2)
    ∧ (d.raw.isSome = true → ensureData env d = .ok d)
    ∧ ((dropData d).len = d.len ∧ (lenConsistent d → lenConsistent (dropData d))) := by
  refine ⟨?_, ?_, ?_, ⟨?_, ?_⟩, ⟨?_, ?_⟩, ?_, ?_, ?_, ?_, ?_, ?_, ?_⟩
  · intro hr
    constructor <;> simp [dataAsRef, dataAsMut, hr]
  · intro hc c hok
    match hr : d.raw with
    | some r =>
      simp only [dataAsRef, hr, Outcome.ok.injEq] at hok
      rw [dataLen, hc r hr, hok]
    | none => simp [dataAsRef, hr] at hok
  · intro r hr; simp [dataFromPath] at hr
  · intro r hr
    simp only [dataFromSlice, Option.some.injEq] at hr
    simp [← hr, dataFromSlice, RawData.content]
  · rfl
  · intro r hr
    simp only [dataFromMmap, Option.some.injEq] at hr
    simp [← hr, dataFromMmap, RawData.content]
  · rfl
  · intro r hr
    simp only [dataNew, Option.some.injEq] at hr
    simp [← hr, dataNew, RawData.content]
  · intro r hr; simp [dataEmpty] at hr
  · intro hc d2 hok
    match hraw : d.raw with
    | some r =>
      simp only [ensureData, hraw, Outcome.ok.injEq] at hok
      rw [← hok]; exact hc
    | none =>
      match hp : d.path with
      | none => simp [ensureData, hraw, hp] at hok
      | some q =>
        match hm : env.openMap q with
        | none => simp [ensureData, hraw, hp, hm] at hok
        | some content =>
          simp only [ensureData, hraw, hp, hm, Outcome.ok.injEq] at hok
          intro r hr
          rw [← hok] at hr
          simp only [Option.some.injEq] at hr
          simp [← hok, ← hr, RawData.content]
  · intro hc d2 hok
    match hraw : d.raw with
    | some r =>
      simp only [ensureDataOfLen, hraw, Outcome.ok.injEq] at hok
      rw [← hok]; exact hc
    | none =>
      match hp : d.path with
      | none => simp [ensureDataOfLen, hraw, hp] at hok
      | some q =>
        match hm : env.openMapLen q len with
        | none => simp [ensureDataOfLen, hraw, hp, hm] at hok
        | some content =>
          by_cases hl : len = content.length
          · simp only [ensureDataOfLen, hraw, hp, hm, if_pos hl, Outcome.ok.injEq] at hok
            intro r hr
            rw [← hok] at hr
            simp only [Option.some.injEq] at hr
            simp [← hok, ← hr, RawData.content]
          · simp [ensureDataOfLen, hraw, hp, hm, if_neg hl] at hok
  · intro h
    match hr : d.raw with
    | some r => simp [ensureData, hr]
    | none => rw [hr] at h; simp at h
  · match hp : d.path with
    | some q => simp [dropData, hp]
    | none => simp [dropData, hp]
  · intro hc r hr
    match hp : d.path with
    | some q => simp [dropData, hp] at hr
    | none =>
      simp only [dropData, hp] at hr ⊢
      exact hc r hr

/-- Witness for C9 at a concrete input: an absent-content buffer panics on
access instead of yielding bytes. -/
theorem claim_C9_len_consistency_witness :
    dataAsRef (dataFromPath "p") = .panic "figure it out"
      ∧ dataAsMut (dataFromPath "p") = .panic "figure it out" :=
  (claim_C9_len_consistency ⟨fun _ => none, fun _ _ => none⟩
    (dataFromPath "p") 0 [] "p").1 rfl

/-!
## `filecoin-proofs/src/api/mod.rs` — `verify_store`

The filesystem is abstracted as `FileSys`: path existence plus the
external `DiskStore::is_consistent` oracle of the merkletree crate
(an out-of-scope collaborator).
-/

/-- `merkletree::store::StoreConfig`: location and identity of a store. -/
structure StoreConfig where
  path : String
  id : String
  size : Option Nat
  rowsToDiscard : Nat
deriving DecidableEq

/-- `StoreConfig::from_config`: copy `path` and `rowsToDiscard`, replace
`id` and `size`. -/
def StoreConfig.fromConfig (c : StoreConfig) (id : String) (size : Option Nat) :
    StoreConfig :=
  { path := c.path, id := id, size := size, rowsToDiscard := c.rowsToDiscard }

/-- Modelled from the spec: `StoreConfig::data_path` of the merkletree
crate builds the canonical on-disk location `<cache_dir>/<id>.dat`. -/
def dataPath (path id : String) : String := path ++ "/" ++ id ++ ".dat"

/-- The filesystem and consistency oracle seen by `verify_store`:
`pathExists` models `Path::exists`, `isConsistent len arity config`
models the external `DiskStore::<E>::is_consistent(len, arity, config)`
call of the merkletree crate. -/
structure FileSys where
  pathExists : String → Bool
  isConsistent : Nat → Nat → StoreConfig → Bool

/-- Fuel-indexed scanner behind `replaceAllAux`; with fuel at least the
input length it performs a greedy left-to-right replace-all. -/
def replaceAllGo (pat rep : List Char) : Nat → List Char → List Char
  | _, [] => []
  | 0, a :: as => a :: as
  | fuel + 1, a :: as =>
    if 0 < pat.length ∧ pat.isPrefixOf (a :: as) then
      rep ++ replaceAllGo pat rep fuel ((a :: as).drop pat.length)
    else
      a :: replaceAllGo pat rep fuel as

/-- Greedy left-to-right replace-all over character lists: the semantics
of Rust `str::replace` as used on `orig_path` in `verify_store`. -/
def replaceAllAux (pat rep l : List Char) : List Char :=
  replaceAllGo pat rep l.length l

/-- `str::contains` on character lists: some position starts with `pat`. -/
def containsAux (pat : List Char) : List Char → Bool
  | [] => pat.isEmpty
  | a :: as => pat.isPrefixOf (a :: as) || containsAux pat as

/-- `String::contains` as used for the `tree-d` / `tree-c` / `tree-r-last`
kind match in `verify_store`. -/
def containsStr (s pat : String) : Bool := containsAux pat.data s.data

/-- The shard path scanned at index `i`:
`orig_path.replace(".dat", format!("-{}.dat", i))` (`mod.rs:490`). -/
def shardPath (orig : String) (i : Nat) : String :=
  String.mk (replaceAllAux ".dat".data ("-" ++ toString i ++ ".dat").data orig.data)

/-- The known store kinds checked by substring match (`mod.rs:496`). -/
def treeNames : List String := ["tree-d", "tree-c", "tree-r-last"]

/-- The shard-config collection loop of `verify_store` (`mod.rs:489-508`):
index `i` contributes a config only when its substituted path exists and
contains one of the known store kinds; the config id is `<kind>-<i>`. -/
def shardConfigs (fs : FileSys) (config : StoreConfig) (orig : String)
    (required : Nat) : List StoreConfig :=
  (List.range required).filterMap fun i =>
    let cur := shardPath orig i
    if fs.pathExists cur then
      match treeNames.find? (fun n => containsStr cur n) with
      | some name => some (config.fromConfig (name ++ "-" ++ toString i) none)
      | none => none
    else none

/-- The per-shard consistency loop of `verify_store` (`mod.rs:517-529`):
the first inconsistent store aborts with the inconsistent-store error. -/
def checkStores (fs : FileSys) (len arity : Nat) : List StoreConfig → Outcome Unit
  | [] => .ok ()
  | c :: cs =>
    if fs.isConsistent len arity c then checkStores fs len arity cs
    else .error ("Store is inconsistent: " ++ dataPath c.path c.id)

/-- `verify_store` (`mod.rs:478-548`): checks the canonical store file if
it exists; otherwise reconstructs deterministic shard paths, requires
exactly `requiredConfigs` of them, and verifies each.  A missing
configured size reproduces the Rust `expect` panic. -/
def verifyStore (fs : FileSys) (config : StoreConfig) (arity requiredConfigs : Nat) :
    Outcome Unit :=
  let storePath := dataPath config.path config.id
  if fs.pathExists storePath then
    match config.size with
    | none => .panic "disk store size not configured"
    | some len =>
      if fs.isConsistent len arity config then .ok ()
      else .error ("Store is inconsistent: " ++ storePath)
  else
    let configs := shardConfigs fs config storePath requiredConfigs
    if configs.length = requiredConfigs then
      match config.size with
      | none => .panic "disk store size not configured"
      | some len => checkStores fs len arity configs
    else
      .error ("Missing store file (or associated split paths): " ++ storePath)

theorem replaceAllGo_append_pat (pat rep : List Char) (hne : pat ≠ [])
    (s : List Char) (fuel : Nat) (hfuel : (s ++ pat).length ≤ fuel)
    (hocc : ∀ t1 t2, s ++ pat = t1 ++ pat ++ t2 → t2 = ([] : List Char)) :
    replaceAllGo pat rep fuel (s ++ pat) = s ++ rep := by
  induction s generalizing fuel with
  | nil =>
    simp only [List.nil_append] at hfuel ⊢
    obtain ⟨a, as, rfl⟩ := List.exists_cons_of_ne_nil hne
    match fuel, hfuel with
    | f + 1, _ =>
      rw [replaceAllGo]
      rw [if_pos ⟨by simp, List.isPrefixOf_iff_prefix.mpr (List.prefix_refl _)⟩]
      rw [List.drop_length]
      simp [replaceAllGo]
  | cons a s ih =>
    rw [List.cons_append] at hfuel ⊢
    match fuel, hfuel with
    | f + 1, hfuel =>
      rw [replaceAllGo]
      rw [if_neg ?hcond]
      case hcond =>
        rintro ⟨-, hpref⟩
        obtain ⟨t, ht⟩ := List.isPrefixOf_iff_prefix.mp hpref
        have h0 := hocc [] t (by simpa using ht.symm)
        subst h0
        simp only [List.append_nil] at ht
        have := congrArg List.length ht
        simp only [List.length_append, List.length_cons] at this
        omega
      rw [ih f (by simp at hfuel ⊢; omega) ?hocc2]
      case hocc2 =>
        intro t1 t2 h
        exact hocc (a :: t1) t2 (by simp [h])
      simp

theorem replaceAllAux_append_pat (pat rep : List Char) (hne : pat ≠ [])
    (s : List Char)
    (hocc : ∀ t1 t2, s ++ pat = t1 ++ pat ++ t2 → t2 = ([] : List Char)) :
    replaceAllAux pat rep (s ++ pat) = s ++ rep :=
  replaceAllGo_append_pat pat rep hne s (s ++ pat).length (Nat.le_refl _) hocc

theorem length_filterMap_eq_length_filter {α β : Type} (f : α → Option β)
    (l : List α) :
    (l.filterMap f).length = (l.filter (fun a => (f a).isSome)).length := by
  induction l with
  | nil => rfl
  | cons a l ih =>
    match hfa : f a with
    | some b => simp [List.filterMap_cons, List.filter_cons, hfa, ih]
    | none => simp [List.filterMap_cons, List.filter_cons, hfa, ih]

theorem checkStores_ok (fs : FileSys) (len arity : Nat) (cfgs : List StoreConfig)
    (h : ∀ c ∈ cfgs, fs.isConsistent len arity c = true) :
    checkStores fs len arity cfgs = .ok () := by
  induction cfgs with
  | nil => rfl
  | cons c cs ih =>
    rw [checkStores, if_pos (h c (by simp))]
    exact ih fun x hx => h x (by simp [hx])

theorem checkStores_fail (fs : FileSys) (len arity : Nat) (cfgs : List StoreConfig)
    (h : ∃ c ∈ cfgs, fs.isConsistent len arity c = false) :
    ∃ p, checkStores fs len arity cfgs = .error ("Store is inconsistent: " ++ p) := by
  induction cfgs with
  | nil => simp at h
  | cons c cs ih =>
    match hc : fs.isConsistent len arity c with
    | false => exact ⟨dataPath c.path c.id, by rw [checkStores, if_neg (by simp [hc])]⟩
    | true =>
      rw [checkStores, if_pos hc]
      apply ih
      obtain ⟨x, hx, hfx⟩ := h
      rcases List.mem_cons.mp hx with rfl | hxs
      · rw [hc] at hfx; cases hfx
      · exact ⟨x, hxs, hfx⟩

/-- **C7**: when the canonical `path/id.dat` store file does not exist,
`verify_store` scans shard paths obtained by substituting `-<i>` before
the `.dat` suffix of the canonical path; an existing shard is counted
only when its path contains one of the kinds `tree-d`, `tree-c`,
`tree-r-last`; unless exactly `requiredConfigs` shards are counted it
fails with the missing-store error; and when the counted shards are all
present, it fails with an inconsistent-store error exactly when some
counted shard fails the length/arity consistency check. -/
theorem claim_C7_verify_store (fs : FileSys) (config : StoreConfig)
    (arity required len : Nat)
    (hmiss : fs.pathExists (dataPath config.path config.id) = false) :
    (∀ i body, (dataPath config.path config.id).data = body ++ ".dat".data →
      (∀ t1 t2, (dataPath config.path config.id).data = t1 ++ ".dat".data ++ t2 →
        t2 = ([] : List Char)) →
      (shardPath (dataPath config.path config.id) i).data =
        body ++ ("-" ++ toString i ++ ".dat").data)
    ∧ (shardConfigs fs config (dataPath config.path config.id) required).length =
      ((List.range required).filter (fun i =>
        fs.pathExists (shardPath (dataPath config.path config.id) i)
        && treeNames.any
          (fun n => containsStr (shardPath (dataPath config.path config.id) i) n))).length
    ∧ ((shardConfigs fs config (dataPath config.path config.id) required).length ≠ required →
      verifyStore fs config arity required =
        .error ("Missing store file (or associated split paths): "
          ++ dataPath config.path config.id))
    ∧ (config.size = some len →
      (shardConfigs fs config (dataPath config.path config.id) required).length = required →
      ((∀ c ∈ shardConfigs fs config (dataPath config.path config.id) required,
          fs.isConsistent len arity c = true) →
        verifyStore fs config arity required = .ok ())
      ∧ ((∃ c ∈ shardConfigs fs config (dataPath config.path config.id) required,
          fs.isConsistent len arity c = false) →
        ∃ p, verifyStore fs config arity required =
          .error ("Store is inconsistent: " ++ p))) := by
  refine ⟨?_, ?_, ?_, ?_⟩
  · intro i body hbody hocc
    show (String.mk (replaceAllAux ".dat".data
      ("-" ++ toString i ++ ".dat").data (dataPath config.path config.id).data)).data = _
    rw [hbody]
    rw [replaceAllAux_append_pat _ _ (by decide) body ?_]
    · intro t1 t2 h
      exact hocc t1 t2 (by rw [hbody, h])
  · rw [shardConfigs, length_filterMap_eq_length_filter]
    congr 1
    apply List.filter_congr
    intro i hi
    simp only []
    match hex : fs.pathExists (shardPath (dataPath config.path config.id) i) with
    | false => simp [hex]
    | true =>
      simp only [hex, if_true, Bool.true_and]
      match hf : treeNames.find? (fun n =>
          containsStr (shardPath (dataPath config.path config.id) i) n) with
      | some name =>
        have : treeNames.any (fun n =>
            containsStr (shardPath (dataPath config.path config.id) i) n) = true := by
          rw [List.any_eq_true]
          exact ⟨name, List.mem_of_find?_eq_some hf, List.find?_some hf⟩
        simp [hf, this]
      | none =>
        have : treeNames.any (fun n =>
            containsStr (shardPath (dataPath config.path config.id) i) n) = false := by
          rw [Bool.eq_false_iff]
          intro hany
          obtain ⟨x, hx, hpx⟩ := List.any_eq_true.mp hany
          have := List.find?_eq_none.mp hf x hx
          rw [hpx] at this
          cases this rfl
        simp [hf, this]
  · intro hcount
    simp only [verifyStore, hmiss, Bool.false_eq_true, if_false]
    rw [if_neg hcount]
  · intro hsize hcount
    constructor
    · intro hall
      simp only [verifyStore, hmiss, Bool.false_eq_true, if_false]
      rw [if_pos hcount, hsize]
      exact checkStores_ok _ _ _ _ hall
    · intro hsome
      obtain ⟨p, hp⟩ := checkStores_fail fs len arity _ hsome
      refine ⟨p, ?_⟩
      simp only [verifyStore, hmiss, Bool.false_eq_true, if_false]
      rw [if_pos hcount, hsize]
      exact hp

/-- Concrete filesystem for the C7 witness: the canonical `tree-c` store
file is absent while its two shards exist, and every store is consistent. -/
def fsW : FileSys :=
  { pathExists := fun p => p == "cache/tree-c-0.dat" || p == "cache/tree-c-1.dat"
    isConsistent := fun _ _ _ => true }

/-- Concrete store config for the C7 witness. -/
def cfgW : StoreConfig := { path := "cache", id := "tree-c", size := some 64, rowsToDiscard := 2 }

/-- Witness for C7 at a concrete input: with the canonical file absent and
both required shards present and consistent, `verify_store` succeeds. -/
theorem claim_C7_verify_store_witness : verifyStore fsW cfgW 8 2 = .ok () :=
  ((claim_C7_verify_store fsW cfgW 8 2 64 (by decide)).2.2.2 rfl (by decide)).1 (by decide)

/-!
## The fr32 bit-padding layer

Modelled from the spec: the fr32 crate (outside the sampled sources)
inserts two zero bits after every 254 payload bits (`Fr32Reader`, used by
`add_piece`) and `write_unpadded` removes them again.  Bytes use
little-endian bit order.
-/

/-- The eight bits of a byte, little-endian. -/
def byteToBits (b : Nat) : List Bool :=
  [b.testBit 0, b.testBit 1, b.testBit 2, b.testBit 3,
   b.testBit 4, b.testBit 5, b.testBit 6, b.testBit 7]

/-- Reassemble a little-endian bit list into a number. -/
def bitsToByte (l : List Bool) : Nat :=
  l.foldr (fun b acc => (if b then 1 else 0) + 2 * acc) 0

/-- A byte stream as a bit stream. -/
def bytesToBits : List Nat → List Bool
  | [] => []
  | b :: bs => byteToBits b ++ bytesToBits bs

/-- A bit stream as a byte stream (eight bits at a time; a trailing
partial byte is dropped, which never happens on the aligned streams used
here). -/
def bitsToBytes : List Bool → List Nat
  | b0 :: b1 :: b2 :: b3 :: b4 :: b5 :: b6 :: b7 :: rest =>
    bitsToByte [b0, b1, b2, b3, b4, b5, b6, b7] :: bitsToBytes rest
  | _ => []

/-- Modelled from the spec: fr32 bit padding inserts two zero bits after
every 254 payload bits. -/
def padBits : List Bool → List Bool
  | [] => []
  | a :: as =>
    (a :: as).take 254 ++ false :: false :: padBits ((a :: as).drop 254)
termination_by l => l.length
decreasing_by
  simp only [List.length_drop, List.length_cons]
  omega

/-- Modelled from the spec: the inverse transform keeps 254 of every 256
bits (dropping the two inserted padding bits). -/
def unpadBits : List Bool → List Bool
  | [] => []
  | a :: as => (a :: as).take 254 ++ unpadBits ((a :: as).drop 256)
termination_by l => l.length
decreasing_by
  simp only [List.length_drop, List.length_cons]
  omega

/-- Modelled from the spec: the fr32 preprocessor on byte streams
(`Fr32Reader`), used by `add_piece` to bit-pad piece bytes. -/
def fr32Pad (l : List Nat) : List Nat := bitsToBytes (padBits (bytesToBits l))

/-- Modelled from the spec: `fr32::write_unpadded(source, target, 0, len)`
removes the bit padding from `source` and writes `len` unpadded bytes;
the returned list is what reaches the output sink. -/
def writeUnpadded (source : List Nat) (len : Nat) : List Nat :=
  (bitsToBytes (unpadBits (bytesToBits source))).take len

set_option maxRecDepth 4096 in
theorem bitsToByte_byteToBits (b : Nat) (hb : b < 256) :
    bitsToByte (byteToBits b) = b := by
  have h : ∀ x : Fin 256, bitsToByte (byteToBits x.val) = x.val := by decide
  exact h ⟨b, hb⟩

theorem byteToBits_bitsToByte (b0 b1 b2 b3 b4 b5 b6 b7 : Bool) :
    byteToBits (bitsToByte [b0, b1, b2, b3, b4, b5, b6, b7]) =
      [b0, b1, b2, b3, b4, b5, b6, b7] := by
  revert b0 b1 b2 b3 b4 b5 b6 b7
  decide

theorem bitsToByte_lt (l : List Bool) : bitsToByte l < 2 ^ l.length := by
  induction l with
  | nil => simp [bitsToByte]
  | cons b bs ih =>
    simp only [bitsToByte, List.foldr_cons, List.length_cons] at ih ⊢
    rw [pow_succ]
    rcases b <;> simp <;> omega

theorem bytesToBits_length (l : List Nat) : (bytesToBits l).length = 8 * l.length := by
  induction l with
  | nil => rfl
  | cons b bs ih =>
    simp only [bytesToBits, List.length_append, List.length_cons, List.length_nil,
      ih, byteToBits]
    omega

theorem bitsToBytes_length (l : List Bool) : (bitsToBytes l).length = l.length / 8 := by
  induction l using bitsToBytes.induct with
  | case1 b0 b1 b2 b3 b4 b5 b6 b7 rest ih =>
    simp only [bitsToBytes, List.length_cons, ih]
    omega
  | case2 l h =>
    match l, h with
    | [], _ => simp [bitsToBytes]
    | [b0], _ => simp [bitsToBytes]
    | [b0, b1], _ => simp [bitsToBytes]
    | [b0, b1, b2], _ => simp [bitsToBytes]
    | [b0, b1, b2, b3], _ => simp [bitsToBytes]
    | [b0, b1, b2, b3, b4], _ => simp [bitsToBytes]
    | [b0, b1, b2, b3, b4, b5], _ => simp [bitsToBytes]
    | [b0, b1, b2, b3, b4, b5, b6], _ => simp [bitsToBytes]
    | b0 :: b1 :: b2 :: b3 :: b4 :: b5 :: b6 :: b7 :: rest, h =>
      exact absurd rfl (h b0 b1 b2 b3 b4 b5 b6 b7 rest)

theorem bitsToBytes_mem (l : List Bool) : ∀ b ∈ bitsToBytes l, b < 256 := by
  induction l using bitsToBytes.induct with
  | case1 b0 b1 b2 b3 b4 b5 b6 b7 rest ih =>
    intro b hb
    simp only [bitsToBytes, List.mem_cons] at hb
    rcases hb with rfl | hb
    · have := bitsToByte_lt [b0, b1, b2, b3, b4, b5, b6, b7]
      simpa using this
    · exact ih b hb
  | case2 l h =>
    intro b hb
    match l, h with
    | [], _ => simp [bitsToBytes] at hb
    | [c0], _ => simp [bitsToBytes] at hb
    | [c0, c1], _ => simp [bitsToBytes] at hb
    | [c0, c1, c2], _ => simp [bitsToBytes] at hb
    | [c0, c1, c2, c3], _ => simp [bitsToBytes] at hb
    | [c0, c1, c2, c3, c4], _ => simp [bitsToBytes] at hb
    | [c0, c1, c2, c3, c4, c5], _ => simp [bitsToBytes] at hb
    | [c0, c1, c2, c3, c4, c5, c6], _ => simp [bitsToBytes] at hb
    | c0 :: c1 :: c2 :: c3 :: c4 :: c5 :: c6 :: c7 :: rest, h =>
      exact absurd rfl (h c0 c1 c2 c3 c4 c5 c6 c7 rest)

theorem bitsToBytes_bytesToBits (l : List Nat) (h : ∀ b ∈ l, b < 256) :
    bitsToBytes (bytesToBits l) = l := by
  induction l with
  | nil => rfl
  | cons b bs ih =>
    have hb : b < 256 := h b (by simp)
    have hbits := bitsToByte_byteToBits b hb
    rw [byteToBits] at hbits
    have hstep : bitsToBytes (bytesToBits (b :: bs)) =
        bitsToByte [b.testBit 0, b.testBit 1, b.testBit 2, b.testBit 3,
          b.testBit 4, b.testBit 5, b.testBit 6, b.testBit 7]
          :: bitsToBytes (bytesToBits bs) := rfl
    rw [hstep, hbits, ih (fun x hx => h x (by simp [hx]))]

theorem bytesToBits_bitsToBytes (l : List Bool) (h : 8 ∣ l.length) :
    bytesToBits (bitsToBytes l) = l := by
  induction l using bitsToBytes.induct with
  | case1 b0 b1 b2 b3 b4 b5 b6 b7 rest ih =>
    have hrest : 8 ∣ rest.length := by
      simp only [List.length_cons] at h
      omega
    have hbyte := byteToBits_bitsToByte b0 b1 b2 b3 b4 b5 b6 b7
    simp only [bitsToBytes, bytesToBits, hbyte, ih hrest]
    rfl
  | case2 l hcase =>
    match l, hcase, h with
    | [], _, _ => rfl
    | [c0], _, h =>
      simp only [List.length_cons, List.length_nil] at h
      omega
    | [c0, c1], _, h =>
      simp only [List.length_cons, List.length_nil] at h
      omega
    | [c0, c1, c2], _, h =>
      simp only [List.length_cons, List.length_nil] at h
      omega
    | [c0, c1, c2, c3], _, h =>
      simp only [List.length_cons, List.length_nil] at h
      omega
    | [c0, c1, c2, c3, c4], _, h =>
      simp only [List.length_cons, List.length_nil] at h
      omega
    | [c0, c1, c2, c3, c4, c5], _, h =>
      simp only [List.length_cons, List.length_nil] at h
      omega
    | [c0, c1, c2, c3, c4, c5, c6], _, h =>
      simp only [List.length_cons, List.length_nil] at h
      omega
    | c0 :: c1 :: c2 :: c3 :: c4 :: c5 :: c6 :: c7 :: rest, hcase, _ =>
      exact absurd rfl (hcase c0 c1 c2 c3 c4 c5 c6 c7 rest)

theorem padBits_len (l : List Bool) (h : l.length % 254 = 0) :
    (padBits l).length = l.length / 254 * 256 := by
  induction l using padBits.induct with
  | case1 => simp [padBits]
  | case2 a as ih =>
    rw [padBits]
    have hlen : (a :: as).length % 254 = 0 := h
    simp only [List.length_cons] at hlen
    have hdrop : ((a :: as).drop 254).length % 254 = 0 := by
      simp only [List.length_drop, List.length_cons]
      omega
    simp only [List.length_append, List.length_cons, List.length_take,
      List.length_drop, ih hdrop]
    omega

theorem unpadBits_padBits (l : List Bool) (h : l.length % 254 = 0) :
    unpadBits (padBits l) = l := by
  induction l using padBits.induct with
  | case1 => simp [padBits, unpadBits]
  | case2 a as ih =>
    have hlen : 253 ≤ as.length := by
      have := h
      simp only [List.length_cons] at this
      omega
    have hdrop : ((a :: as).drop 254).length % 254 = 0 := by
      simp only [List.length_drop, List.length_cons]
      simp only [List.length_cons] at h
      omega
    have e1 : (a :: as).take 254 = a :: as.take 253 := rfl
    have e2 : (a :: as).drop 254 = as.drop 253 := rfl
    rw [padBits, e1, e2, List.cons_append, unpadBits]
    have e3 : (a :: (as.take 253 ++ false :: false :: padBits (as.drop 253))).take 254
        = a :: (as.take 253 ++ false :: false :: padBits (as.drop 253)).take 253 := rfl
    have e4 : (a :: (as.take 253 ++ false :: false :: padBits (as.drop 253))).drop 256
        = (as.take 253 ++ false :: false :: padBits (as.drop 253)).drop 255 := rfl
    rw [e3, e4]
    have htake : (as.take 253 ++ false :: false :: padBits (as.drop 253)).take 253
        = as.take 253 := by
      rw [List.take_append_of_le_length (by simp only [List.length_take]; omega)]
      rw [List.take_take]
      norm_num
    have hdrop2 : (as.take 253 ++ false :: false :: padBits (as.drop 253)).drop 255
        = padBits (as.drop 253) := by
      rw [List.drop_append_eq_append_drop]
      rw [List.drop_eq_nil_of_le (by simp only [List.length_take]; omega)]
      have h255 : 255 - (as.take 253).length = 2 := by
        simp only [List.length_take]
        omega
      rw [h255]
      rfl
    have ih2 := ih hdrop
    rw [e2] at ih2
    rw [htake, hdrop2, ih2, List.cons_append, List.take_append_drop]

theorem fr32Pad_length (l : List Nat) (h : 127 ∣ l.length) :
    (fr32Pad l).length = toPadded l.length := by
  obtain ⟨m, hm⟩ := h
  have h1 : (bytesToBits l).length = 8 * l.length := bytesToBits_length l
  have h2 : (bytesToBits l).length % 254 = 0 := by rw [h1, hm]; omega
  rw [fr32Pad, bitsToBytes_length, padBits_len _ h2, h1, hm, toPadded]
  omega

theorem fr32Pad_mem (l : List Nat) : ∀ b ∈ fr32Pad l, b < 256 :=
  bitsToBytes_mem _

theorem writeUnpadded_fr32Pad (l : List Nat) (hd : 127 ∣ l.length)
    (hb : ∀ b ∈ l, b < 256) :
    writeUnpadded (fr32Pad l) l.length = l := by
  obtain ⟨m, hm⟩ := hd
  have h1 : (bytesToBits l).length % 254 = 0 := by
    rw [bytesToBits_length, hm]
    omega
  have h2 : 8 ∣ (padBits (bytesToBits l)).length := by
    rw [padBits_len _ h1, bytesToBits_length, hm]
    omega
  rw [writeUnpadded, fr32Pad, bytesToBits_bitsToBytes _ h2, unpadBits_padBits _ h1,
    bitsToBytes_bytesToBits _ hb, List.take_length]

/-!
## The unseal engine (`filecoin-proofs/src/api/mod.rs`)

`unseal_range` / `unseal_range_mapped` / `unseal_range_inner`.  The
observable side effects (replica-id derivation, loading the sealed
sector, extraction, writing the output sink) are recorded as a trace so
that ordering claims can be stated.
-/

/-- The BLS12-381 scalar field modulus (the domain of commitments). -/
def blsModulus : Nat :=
  52435875175126190479447740508185965837690552500527637822603658699938581184513

/-- Little-endian byte-list value. -/
def natOfBytesLE : List Nat → Nat
  | [] => 0
  | b :: bs => b + 256 * natOfBytesLE bs

/-- Modelled from the spec: `as_safe_commitment` (api/util.rs, outside the
sampled sources) interprets 32 commitment bytes as a field element,
failing when the value is not canonical. -/
def asSafeCommitment (commD : List Nat) : Outcome Nat :=
  if natOfBytesLE commD < blsModulus then .ok (natOfBytesLE commD)
  else .error "Invalid commitment (comm_d)"

/-- Modelled from the spec: `generate_replica_id` derives the replica id
from `(prover_id, sector_id, ticket, comm_d, porep_id)` through the
opaque hasher. -/
def generateReplicaId (proverId sectorId ticket commD porepId : Nat) : Nat :=
  mix proverId (mix sectorId (mix ticket (mix commD porepId)))

/-- Modelled from the spec: the key stream of the layered encoding,
derived from the replica id; node `i` is keyed by `keyFrom rid i`. -/
def keyFrom (rid : Nat) (i : Nat) : Nat := mix rid i

/-- Modelled from the spec: the replica encoding applied by sealing is a
node-wise invertible keyed transform (the stacked-DRG encoder adds a
label-derived key to each node); bytes are encoded by keyed addition in
the byte domain starting at index `i`. -/
def encodeFrom (k : Nat → Nat) : Nat → List Nat → List Nat
  | _, [] => []
  | i, b :: bs => (b + k i) % 256 :: encodeFrom k (i + 1) bs

/-- Modelled from the spec:
`StackedDrg::extract_and_invert_transform_layers` runs the inverse of the
layered encoding in place; node-wise keyed subtraction starting at `i`. -/
def extractFrom (k : Nat → Nat) : Nat → List Nat → List Nat
  | _, [] => []
  | i, b :: bs => (b + 256 - k i % 256) % 256 :: extractFrom k (i + 1) bs

theorem encodeFrom_length (k : Nat → Nat) (i : Nat) (l : List Nat) :
    (encodeFrom k i l).length = l.length := by
  induction l generalizing i with
  | nil => rfl
  | cons b bs ih => simp [encodeFrom, ih]

theorem extractFrom_length (k : Nat → Nat) (i : Nat) (l : List Nat) :
    (extractFrom k i l).length = l.length := by
  induction l generalizing i with
  | nil => rfl
  | cons b bs ih => simp [extractFrom, ih]

theorem extractFrom_encodeFrom (k : Nat → Nat) (i : Nat) (l : List Nat)
    (h : ∀ b ∈ l, b < 256) :
    extractFrom k i (encodeFrom k i l) = l := by
  induction l generalizing i with
  | nil => rfl
  | cons b bs ih =>
    have hb : b < 256 := h b (by simp)
    simp only [encodeFrom, extractFrom]
    congr 1
    · omega
    · exact ih (i + 1) (fun x hx => h x (by simp [hx]))

/-- Observable effects of the unseal path, in order of occurrence. -/
inductive UnsealStep where
  | derivedReplicaId
  | loadedSealedData
  | extracted
  | wroteOutput
deriving DecidableEq

/-- `unseal_range_inner` (`mod.rs:282-325`): runs the inverse transform,
converts the unpadded offset and count to padded amounts, slices
`data[start..end]` (a Rust panic when out of bounds — there is no bounds
check), and writes the un-bit-padded range to the sink.  Returns the
written byte count together with the bytes that reached the sink. -/
def unsealRangeInner (key : Nat → Nat) (data : List Nat) (offset numBytes : Nat) :
    Outcome (Nat × List Nat) × List UnsealStep :=
  let decoded := extractFrom key 0 data
  let start := toPadded offset
  let stop := start + toPadded numBytes
  if stop ≤ decoded.length then
    let unsealed := (decoded.drop start).take (toPadded numBytes)
    let written := writeUnpadded unsealed numBytes
    (.ok (written.length, written), [.extracted, .wroteOutput])
  else
    (.panic "slice index out of range", [.extracted])

/-- `unseal_range` (`mod.rs:145-193`): rejects the all-zero `comm_d`
first, then converts it to a safe commitment, derives the replica id,
reads the sealed sector to its end, and calls `unseal_range_inner`. -/
def unsealRange (porepId : Nat) (sealedSector : Option (List Nat))
    (proverId sectorId ticket : Nat) (commD : List Nat) (offset numBytes : Nat) :
    Outcome (Nat × List Nat) × List UnsealStep :=
  if commD = List.replicate 32 0 then
    (.error "Invalid all zero commitment (comm_d)", [])
  else
    match asSafeCommitment commD with
    | .ok cd =>
      let replicaId := generateReplicaId proverId sectorId ticket cd porepId
      match sealedSector with
      | none => (.error "failed to read sealed sector", [.derivedReplicaId])
      | some data =>
        let inner := unsealRangeInner (keyFrom replicaId) data offset numBytes
        (inner.1, .derivedReplicaId :: .loadedSealedData :: inner.2)
    | .error e => (.error e, [])
    | .panic m => (.panic m, [])

/-- `unseal_range_mapped` (`mod.rs:213-262`): identical to `unseal_range`
except that the sealed sector is opened and copy-mapped from a path. -/
def unsealRangeMapped (porepId : Nat) (fsOpen : String → Option (List Nat))
    (sealedPath : String) (proverId sectorId ticket : Nat) (commD : List Nat)
    (offset numBytes : Nat) :
    Outcome (Nat × List Nat) × List UnsealStep :=
  if commD = List.replicate 32 0 then
    (.error "Invalid all zero commitment (comm_d)", [])
  else
    match asSafeCommitment commD with
    | .ok cd =>
      let replicaId := generateReplicaId proverId sectorId ticket cd porepId
      match fsOpen sealedPath with
      | none => (.error "failed to open sealed path", [.derivedReplicaId])
      | some data =>
        let inner := unsealRangeInner (keyFrom replicaId) data offset numBytes
        (inner.1, .derivedReplicaId :: .loadedSealedData :: inner.2)
    | .error e => (.error e, [])
    | .panic m => (.panic m, [])

/-- **C6**: with `comm_d` equal to the all-zero 32-byte value, both
`unseal_range` and `unseal_range_mapped` return an error immediately,
with an empty effect trace — no replica-id derivation, no data loading
and no output writing has occurred. -/
theorem claim_C6_all_zero_comm_d (porepId : Nat) (sealedSector : Option (List Nat))
    (fsOpen : String → Option (List Nat)) (sealedPath : String)
    (proverId sectorId ticket : Nat) (commD : List Nat) (offset numBytes : Nat)
    (h : commD = List.replicate 32 0) :
    unsealRange porepId sealedSector proverId sectorId ticket commD offset numBytes
      = (.error "Invalid all zero commitment (comm_d)", [])
    ∧ unsealRangeMapped porepId fsOpen sealedPath proverId sectorId ticket commD
        offset numBytes
      = (.error "Invalid all zero commitment (comm_d)", []) := by
  constructor <;> simp [unsealRange, unsealRangeMapped, h]

/-- Witness for C6 at concrete inputs. -/
theorem claim_C6_all_zero_comm_d_witness :
    unsealRange 1 (some [7]) 2 3 4 (List.replicate 32 0) 0 127
      = (.error "Invalid all zero commitment (comm_d)", [])
    ∧ unsealRangeMapped 1 (fun _ => some [7]) "sealed" 2 3 4 (List.replicate 32 0) 0 127
      = (.error "Invalid all zero commitment (comm_d)", []) :=
  claim_C6_all_zero_comm_d 1 (some [7]) (fun _ => some [7]) "sealed" 2 3 4
    (List.replicate 32 0) 0 127 rfl

/-- **C10** (implicit claim): `unseal_range_inner` slices
`data[start..end]` with `start` the padded offset and `end` the padded
end, without any bounds check; the panic branch is avoided exactly when
the padded offset plus the padded byte count fits inside the sealed
data, in which case the call returns `Ok`; otherwise it panics instead
of returning an error. -/
theorem claim_C10_unseal_slice_bounds (key : Nat → Nat) (data : List Nat)
    (offset numBytes : Nat) :
    ((unsealRangeInner key data offset numBytes).1.isPanic = true ↔
      data.length < toPadded offset + toPadded numBytes)
    ∧ (toPadded offset + toPadded numBytes ≤ data.length →
      ∃ w, (unsealRangeInner key data offset numBytes).1 = .ok w) := by
  constructor
  · rw [unsealRangeInner]
    simp only [extractFrom_length]
    by_cases hle : toPadded offset + toPadded numBytes ≤ data.length
    · rw [if_pos hle]
      simp only [Outcome.isPanic]
      constructor
      · intro hfalse; cases hfalse
      · omega
    · rw [if_neg hle]
      simp only [Outcome.isPanic]
      constructor
      · intro _; omega
      · intro _; trivial
  · intro hle
    rw [unsealRangeInner]
    simp only [extractFrom_length]
    rw [if_pos hle]
    exact ⟨_, rfl⟩

/-- Witness for C10 at concrete inputs: a 128-byte sector and a 127-byte
unpadded request at offset 0 stay in bounds and return `Ok`. -/
theorem claim_C10_unseal_slice_bounds_witness :
    ∃ w, (unsealRangeInner (fun _ => 0) (List.replicate 128 0) 0 127).1 = .ok w :=
  (claim_C10_unseal_slice_bounds (fun _ => 0) (List.replicate 128 0) 0 127).2
    (by simp [toPadded])

/-!
## `add_piece` (`filecoin-proofs/src/api/mod.rs:379-449`)

`ensure_piece_size` is in the sampled sources; the piece-alignment
helpers (`get_piece_alignment`, `sum_piece_bytes_with_alignment`) live in
`filecoin-proofs/src/pieces.rs` outside the sampled sources and are
modelled from the spec.
-/

/-- `PieceAlignment` of pieces.rs: NUL-byte prefix and suffix, in
unpadded bytes. -/
structure PieceAlignment where
  leftBytes : Nat
  rightBytes : Nat
deriving DecidableEq

/-- `PieceInfo`: piece commitment plus unpadded size. -/
structure PieceInfo where
  commitment : Nat
  size : Nat
deriving DecidableEq

/-- Doubling loop behind `pieceBytesNeeded`, fuel-indexed. -/
def pieceBytesNeededAux (pieceBytes : Nat) : Nat → Nat → Nat
  | 0, acc => acc
  | fuel + 1, acc =>
    if acc < pieceBytes then pieceBytesNeededAux pieceBytes fuel (acc * 2)
    else acc

/-- Modelled from the spec: the piece-slot size of `get_piece_alignment`
(pieces.rs): the minimum piece size 127, doubled until it reaches the
piece size, so that the piece occupies a whole subtree. -/
def pieceBytesNeeded (pieceBytes : Nat) : Nat :=
  pieceBytesNeededAux pieceBytes pieceBytes 127

/-- Modelled from the spec: `get_piece_alignment(written_bytes,
piece_bytes)` (pieces.rs) computes the NUL prefix aligning the piece to
its slot boundary and the NUL suffix filling the slot. -/
def getPieceAlignment (written pieceBytes : Nat) : PieceAlignment :=
  let needed := pieceBytesNeeded pieceBytes
  let encroaching := written % needed
  { leftBytes := if 0 < encroaching then needed - encroaching else 0
    rightBytes := needed - pieceBytes }

/-- `PieceAlignment::sum`: bytes occupied by an aligned piece. -/
def alignmentSum (al : PieceAlignment) (pieceBytes : Nat) : Nat :=
  al.leftBytes + pieceBytes + al.rightBytes

/-- Modelled from the spec: `sum_piece_bytes_with_alignment` (pieces.rs):
total unpadded bytes occupied by the given pieces, each aligned in turn. -/
def sumPieceBytesWithAlignment (pieces : List Nat) : Nat :=
  pieces.foldl (fun acc p => acc + alignmentSum (getPieceAlignment acc p) p) 0

/-- `ensure_piece_size` (`mod.rs:434-449`). -/
def ensurePieceSize (pieceSize : Nat) : Outcome Unit :=
  if minimumPieceSize ≤ pieceSize then
    if isPow2 (toPadded pieceSize) then .ok ()
    else .error "Bit-padded piece size must be a power of 2"
  else .error "Piece must be at least 127 bytes"

/-- Modelled from the spec: the piece commitment over the preprocessed
piece bytes (`CommitmentReader`, a subtree Merkle root through the
opaque piece hasher). -/
def pieceCommit (l : List Nat) : Nat := l.foldl mix 5

/-- `add_piece` (`mod.rs:379-432`): checks the piece size, writes the
left alignment as padded NUL bytes, streams the piece through the fr32
preprocessor, checks the written amount, writes the right alignment, and
returns the piece info, the occupied unpadded byte count, and (in this
embedding) the bytes appended to the target. -/
def addPiece (piece : List Nat) (pieceLengths : List Nat) :
    Outcome (PieceInfo × Nat × List Nat) :=
  match ensurePieceSize piece.length with
  | .error e => .error e
  | .panic m => .panic m
  | .ok _ =>
    let written := sumPieceBytesWithAlignment pieceLengths
    let al := getPieceAlignment written piece.length
    let leftZeros := List.replicate (toPadded al.leftBytes) 0
    let padded := fr32Pad piece
    let n := padded.length
    if n = 0 then .error "add_piece: read 0 bytes before EOF from source"
    else if toUnpadded n = piece.length then
      let rightZeros := List.replicate (toPadded al.rightBytes) 0
      .ok ({ commitment := pieceCommit padded, size := toUnpadded n },
        al.leftBytes + al.rightBytes + piece.length,
        leftZeros ++ padded ++ rightZeros)
    else .error "add_piece: invalid bytes amount written"

theorem validPiece_shape (p : Nat) (h127 : 127 ≤ p)
    (hpow : isPow2 (toPadded p) = true) : ∃ s, p = 127 * 2 ^ s := by
  obtain ⟨j, hj⟩ := (isPow2_iff _).mp hpow
  have hge : 128 ≤ toPadded p := by
    rw [toPadded]
    have h1 : 1 ≤ p / 127 := (Nat.one_le_div_iff (by norm_num)).mpr h127
    omega
  have hj7 : 7 ≤ j := by
    by_contra hlt
    push_neg at hlt
    have h2 : (2:Nat) ^ j ≤ 2 ^ 6 := Nat.pow_le_pow_right (by norm_num) (by omega)
    rw [hj] at hge
    norm_num at h2
    omega
  refine ⟨j - 7, ?_⟩
  have hsplit : (2:Nat) ^ j = 128 * 2 ^ (j - 7) := by
    have h3 : (2:Nat) ^ j = 2 ^ (7 + (j - 7)) := by congr 1; omega
    rw [h3, pow_add]
    norm_num
  rw [toPadded, hsplit] at hj
  omega

theorem pieceBytesNeededAux_exact (p s : Nat) (hp : p = 127 * 2 ^ s) :
    ∀ fuel t, t ≤ s → s - t ≤ fuel →
      pieceBytesNeededAux p fuel (127 * 2 ^ t) = p := by
  intro fuel
  induction fuel with
  | zero =>
    intro t hts hfuel
    have hst : s = t := by omega
    rw [pieceBytesNeededAux, hp, hst]
  | succ fuel ih =>
    intro t hts hfuel
    rw [pieceBytesNeededAux]
    by_cases hlt : 127 * 2 ^ t < p
    · rw [if_pos hlt]
      have ht : t < s := by
        by_contra hc
        have hst : t = s := by omega
        rw [hst, ← hp] at hlt
        exact lt_irrefl _ hlt
      have hmul : 127 * 2 ^ t * 2 = 127 * 2 ^ (t + 1) := by ring
      rw [hmul]
      exact ih (t + 1) (by omega) (by omega)
    · rw [if_neg hlt]
      have hle : (2:Nat) ^ t ≤ 2 ^ s := Nat.pow_le_pow_right (by norm_num) hts
      omega

theorem pieceBytesNeeded_exact (p s : Nat) (hp : p = 127 * 2 ^ s) :
    pieceBytesNeeded p = p := by
  have hs : s - 0 ≤ p := by
    have h1 : s < 2 ^ s := Nat.lt_two_pow s
    have h2 : (2:Nat) ^ s ≤ 127 * 2 ^ s := by omega
    omega
  have h := pieceBytesNeededAux_exact p s hp p 0 (Nat.zero_le s) hs
  rw [pieceBytesNeeded]
  simpa using h

theorem getPieceAlignment_shape (written p s : Nat) (hp : p = 127 * 2 ^ s)
    (hw : 127 ∣ written) :
    127 ∣ (getPieceAlignment written p).leftBytes
      ∧ (getPieceAlignment written p).rightBytes = 0 := by
  have hneed := pieceBytesNeeded_exact p s hp
  have hdvdp : 127 ∣ p := ⟨2 ^ s, hp⟩
  constructor
  · simp only [getPieceAlignment, hneed]
    by_cases h0 : 0 < written % p
    · rw [if_pos h0]
      exact Nat.dvd_sub' hdvdp ((Nat.dvd_mod_iff hdvdp).mpr hw)
    · rw [if_neg h0]
      exact Dvd.intro 0 rfl
  · simp only [getPieceAlignment, hneed]
    omega

theorem sumPieceBytes_foldl_dvd (pieces : List Nat)
    (h : ∀ p ∈ pieces, 127 ≤ p ∧ isPow2 (toPadded p) = true) :
    ∀ acc, 127 ∣ acc →
      127 ∣ pieces.foldl (fun acc p => acc + alignmentSum (getPieceAlignment acc p) p) acc := by
  induction pieces with
  | nil => intro acc hacc; simpa using hacc
  | cons p ps ih =>
    intro acc hacc
    obtain ⟨hmin, hpow⟩ := h p (by simp)
    obtain ⟨s, hs⟩ := validPiece_shape p hmin hpow
    obtain ⟨hleft, hright⟩ := getPieceAlignment_shape acc p s hs hacc
    rw [List.foldl_cons]
    apply ih (fun q hq => h q (by simp [hq]))
    rw [alignmentSum, hright]
    have hdvdp : 127 ∣ p := ⟨2 ^ s, hs⟩
    omega

theorem sumPieceBytes_dvd (pieces : List Nat)
    (h : ∀ p ∈ pieces, 127 ≤ p ∧ isPow2 (toPadded p) = true) :
    127 ∣ sumPieceBytesWithAlignment pieces :=
  sumPieceBytes_foldl_dvd pieces h 0 ⟨0, rfl⟩

theorem toPadded_add_of_dvd (a b : Nat) (h : 127 ∣ a) :
    toPadded (a + b) = toPadded a + toPadded b := by
  obtain ⟨m, rfl⟩ := h
  simp only [toPadded]
  omega

theorem toUnpadded_toPadded (p : Nat) (h : 127 ∣ p) :
    toUnpadded (toPadded p) = p := by
  obtain ⟨m, rfl⟩ := h
  simp only [toPadded, toUnpadded]
  omega

theorem addPiece_ok (piece pieceLengths : List Nat)
    (hmin : 127 ≤ piece.length) (hpow : isPow2 (toPadded piece.length) = true) :
    addPiece piece pieceLengths = .ok
      ({ commitment := pieceCommit (fr32Pad piece), size := piece.length },
        (getPieceAlignment (sumPieceBytesWithAlignment pieceLengths)
            piece.length).leftBytes
          + (getPieceAlignment (sumPieceBytesWithAlignment pieceLengths)
              piece.length).rightBytes
          + piece.length,
        List.replicate (toPadded (getPieceAlignment
            (sumPieceBytesWithAlignment pieceLengths) piece.length).leftBytes) 0
          ++ fr32Pad piece
          ++ List.replicate (toPadded (getPieceAlignment
              (sumPieceBytesWithAlignment pieceLengths) piece.length).rightBytes) 0) := by
  have hdvd : 127 ∣ piece.length := by
    obtain ⟨s, hs⟩ := validPiece_shape piece.length hmin hpow
    exact ⟨2 ^ s, hs⟩
  have hens : ensurePieceSize piece.length = .ok () := by
    rw [ensurePieceSize, if_pos (by simpa [minimumPieceSize] using hmin), if_pos hpow]
  have hlen : (fr32Pad piece).length = toPadded piece.length := fr32Pad_length _ hdvd
  have hne : ¬ (fr32Pad piece).length = 0 := by
    rw [hlen, toPadded]
    omega
  have hun : toUnpadded (fr32Pad piece).length = piece.length := by
    rw [hlen]
    exact toUnpadded_toPadded _ hdvd
  simp only [addPiece, hens]
  rw [if_neg hne, if_pos hun, hun]

theorem unsealRangeInner_slice (key : Nat → Nat) (pre mids post : List Nat)
    (offset numBytes : Nat)
    (hb : ∀ b ∈ pre ++ mids ++ post, b < 256)
    (hoff : toPadded offset = pre.length)
    (hlen : toPadded numBytes = mids.length) :
    unsealRangeInner key (encodeFrom key 0 (pre ++ mids ++ post)) offset numBytes
      = (.ok ((writeUnpadded mids numBytes).length, writeUnpadded mids numBytes),
         [.extracted, .wroteOutput]) := by
  have hex : extractFrom key 0 (encodeFrom key 0 (pre ++ mids ++ post))
      = pre ++ mids ++ post := extractFrom_encodeFrom key 0 _ hb
  simp only [unsealRangeInner, hex]
  have hcond : toPadded offset + toPadded numBytes ≤ (pre ++ mids ++ post).length := by
    simp only [List.length_append, hoff, hlen]
    omega
  rw [if_pos hcond]
  have hdrop : (pre ++ mids ++ post).drop (toPadded offset) = mids ++ post := by
    rw [hoff, List.append_assoc]
    exact List.drop_left pre (mids ++ post)
  have htake : (mids ++ post).take (toPadded numBytes) = mids := by
    rw [hlen]
    exact List.take_left mids post
  rw [hdrop, htake]

/-- **C1**: a piece of at least the minimum piece size whose padded size
is a power of two, written into a sector with `add_piece` after
previously added pieces, then sealed (node-wise keyed encoding derived
from the replica id) and unsealed with `unseal_range` over exactly the
piece's unpadded byte range, reaches the output sink byte-identical to
the original piece input, and the call returns the unpadded byte count
written. -/
theorem claim_C1_add_piece_unseal_roundtrip
    (porepId proverId sectorId ticket : Nat) (commD : List Nat)
    (piece pref tail : List Nat) (pieceLengths : List Nat)
    (hmin : minimumPieceSize ≤ piece.length)
    (hpow : isPow2 (toPadded piece.length) = true)
    (hprev : ∀ p ∈ pieceLengths, 127 ≤ p ∧ isPow2 (toPadded p) = true)
    (hb : ∀ b ∈ piece, b < 256)
    (hprefb : ∀ b ∈ pref, b < 256)
    (htailb : ∀ b ∈ tail, b < 256)
    (hpref : pref.length = toPadded (sumPieceBytesWithAlignment pieceLengths))
    (hcd : ¬ commD = List.replicate 32 0)
    (hsafe : natOfBytesLE commD < blsModulus) :
    ∃ info writtenAmt appended,
      addPiece piece pieceLengths = .ok (info, writtenAmt, appended)
      ∧ unsealRange porepId
          (some (encodeFrom
            (keyFrom (generateReplicaId proverId sectorId ticket
              (natOfBytesLE commD) porepId)) 0
            (pref ++ appended ++ tail)))
          proverId sectorId ticket commD
          (sumPieceBytesWithAlignment pieceLengths
            + (getPieceAlignment (sumPieceBytesWithAlignment pieceLengths)
                piece.length).leftBytes)
          piece.length
        = (.ok (piece.length, piece),
           [.derivedReplicaId, .loadedSealedData, .extracted, .wroteOutput]) := by
  have hmin127 : 127 ≤ piece.length := by simpa [minimumPieceSize] using hmin
  obtain ⟨s, hs⟩ := validPiece_shape piece.length hmin127 hpow
  have hdvd : 127 ∣ piece.length := ⟨2 ^ s, hs⟩
  have hW : 127 ∣ sumPieceBytesWithAlignment pieceLengths := sumPieceBytes_dvd _ hprev
  obtain ⟨hleft, hright⟩ :=
    getPieceAlignment_shape (sumPieceBytesWithAlignment pieceLengths) piece.length s hs hW
  refine ⟨_, _, _, addPiece_ok piece pieceLengths hmin127 hpow, ?_⟩
  rw [hright]
  have hpad0 : toPadded 0 = 0 := rfl
  rw [hpad0]
  simp only [List.replicate_zero, List.append_nil]
  simp only [unsealRange, if_neg hcd, asSafeCommitment, if_pos hsafe]
  have hsec : pref ++ (List.replicate (toPadded (getPieceAlignment
        (sumPieceBytesWithAlignment pieceLengths) piece.length).leftBytes) 0
        ++ fr32Pad piece) ++ tail
      = (pref ++ List.replicate (toPadded (getPieceAlignment
          (sumPieceBytesWithAlignment pieceLengths) piece.length).leftBytes) 0)
        ++ fr32Pad piece ++ tail := by
    simp [List.append_assoc]
  rw [hsec]
  have hball : ∀ b ∈ (pref ++ List.replicate (toPadded (getPieceAlignment
      (sumPieceBytesWithAlignment pieceLengths) piece.length).leftBytes) 0)
      ++ fr32Pad piece ++ tail, b < 256 := by
    intro b hbmem
    simp only [List.mem_append, List.mem_replicate] at hbmem
    rcases hbmem with ((hp | hz) | hf) | ht
    · exact hprefb b hp
    · omega
    · exact fr32Pad_mem piece b hf
    · exact htailb b ht
  have hoff : toPadded (sumPieceBytesWithAlignment pieceLengths
      + (getPieceAlignment (sumPieceBytesWithAlignment pieceLengths)
          piece.length).leftBytes)
      = (pref ++ List.replicate (toPadded (getPieceAlignment
          (sumPieceBytesWithAlignment pieceLengths) piece.length).leftBytes) 0).length := by
    rw [toPadded_add_of_dvd _ _ hW, List.length_append, List.length_replicate, hpref]
  have hlen2 : toPadded piece.length = (fr32Pad piece).length :=
    (fr32Pad_length piece hdvd).symm
  rw [unsealRangeInner_slice _ _ _ _ _ _ hball hoff hlen2]
  rw [writeUnpadded_fr32Pad piece hdvd hb]

set_option maxRecDepth 16384 in
/-- Witness for C1 at concrete inputs: a 127-byte piece (all bytes 1) as
the first piece of a sector. -/
theorem claim_C1_add_piece_unseal_roundtrip_witness :
    ∃ info writtenAmt appended,
      addPiece (List.replicate 127 1) [] = .ok (info, writtenAmt, appended)
      ∧ unsealRange 11
          (some (encodeFrom
            (keyFrom (generateReplicaId 2 3 4
              (natOfBytesLE (1 :: List.replicate 31 0)) 11)) 0
            ([] ++ appended ++ [])))
          2 3 4 (1 :: List.replicate 31 0)
          (sumPieceBytesWithAlignment []
            + (getPieceAlignment (sumPieceBytesWithAlignment [])
                (List.replicate 127 1).length).leftBytes)
          (List.replicate 127 1).length
        = (.ok ((List.replicate 127 1).length, List.replicate 127 1),
           [.derivedReplicaId, .loadedSealedData, .extracted, .wroteOutput]) :=
  claim_C1_add_piece_unseal_roundtrip 11 2 3 4 (1 :: List.replicate 31 0)
    (List.replicate 127 1) [] [] []
    (by decide) (by decide) (by decide) (by decide) (by decide) (by decide)
    (by decide) (by decide) (by decide)

/-!
## Window PoSt fault detection (spec-modelled)

`generate_window_post` and `verify_window_post` live in
`api/window_post.rs`, outside the sampled sources; only their test
(`tests/api.rs:1978-2025`) is sampled.  The engine is modelled from the
spec: partial-failure semantics with a structured `FaultySectors` error
distinct from transport/IO errors.
-/

/-- Structured PoSt error taxonomy of the spec (§7): `faultySectors`
carries the full id set of failed sectors and is distinct from the
transport/IO case. -/
inductive PostError where
  | faultySectors (ids : List Nat)
  | ioErr (msg : String)
  | proofInvalid
deriving DecidableEq

/-- Commitment of replica content through the opaque hasher. -/
def commOf (content : List Nat) : Nat := content.foldl mix 3

/-- Modelled from the spec: per-sector vanilla proof generation; it fails
exactly when the sector's replica data is totally unreadable (`none`) or
empty. -/
def vanillaProofOpt (randomness sectorId : Nat) :
    Option (List Nat) → Option Nat
  | none => none
  | some [] => none
  | some (b :: bs) => some (mix randomness (mix sectorId (commOf (b :: bs))))

/-- Modelled from the spec: `generate_window_post` over private replicas
`(sector_id, data)`: it collects the full set of sector ids whose
replica cannot produce a vanilla proof and signals `FaultySectors` with
exactly those ids; with no faults it produces one proof entry per
sector bound to `(randomness, prover_id, sector_id, comm_r)`. -/
def generateWindowPost (randomness proverId : Nat)
    (replicas : List (Nat × Option (List Nat))) :
    Except PostError (List (Nat × Nat)) :=
  let faults := (replicas.filter fun r =>
    (vanillaProofOpt randomness r.1 r.2).isNone).map Prod.fst
  if faults.isEmpty then
    .ok (replicas.map fun r =>
      (r.1, mix randomness (mix proverId (mix r.1 (commOf (r.2.getD []))))))
  else
    .error (.faultySectors faults)

/-- Modelled from the spec: `verify_window_post` checks the proof against
the public replicas `(sector_id, comm_r)`. -/
def verifyWindowPost (randomness proverId : Nat)
    (pubReplicas : List (Nat × Nat)) (proof : List (Nat × Nat)) : Bool :=
  proof == pubReplicas.map fun pr =>
    (pr.1, mix randomness (mix proverId (mix pr.1 pr.2)))

/-- **C2**: for a batch of private replicas in which exactly the sectors
with unreadable-or-empty replica data are corrupted,
`generate_window_post` fails with a `FaultySectors` error carrying
exactly the corrupted ids (so with K corrupted sectors the id set has
exactly K members); `FaultySectors` is a different constructor from the
transport/IO error; and with zero corrupted sectors it produces a proof
accepted by `verify_window_post`. -/
theorem claim_C2_window_post_faults (randomness proverId : Nat)
    (replicas : List (Nat × Option (List Nat))) :
    (((replicas.filter fun r => r.2.getD [] == ([] : List Nat)).map Prod.fst ≠ [] →
      generateWindowPost randomness proverId replicas
        = .error (.faultySectors
            ((replicas.filter fun r => r.2.getD [] == ([] : List Nat)).map Prod.fst)))
    ∧ ((replicas.filter fun r => r.2.getD [] == ([] : List Nat)).map Prod.fst = [] →
      ∃ proof, generateWindowPost randomness proverId replicas = .ok proof
        ∧ verifyWindowPost randomness proverId
            (replicas.map fun r => (r.1, commOf (r.2.getD []))) proof = true))
    ∧ (∀ ids msg, (PostError.faultySectors ids : PostError) ≠ .ioErr msg) := by
  have hpred : ∀ r ∈ replicas,
      ((vanillaProofOpt randomness r.1 r.2).isNone : Bool)
        = (r.2.getD [] == ([] : List Nat)) := by
    intro r _
    match hr : r.2 with
    | none => rfl
    | some [] => rfl
    | some (b :: bs) => simp [vanillaProofOpt, Option.getD]
  have hfilter : (replicas.filter fun r => (vanillaProofOpt randomness r.1 r.2).isNone)
      = replicas.filter fun r => r.2.getD [] == ([] : List Nat) :=
    List.filter_congr hpred
  refine ⟨⟨?_, ?_⟩, ?_⟩
  · intro hne
    rw [generateWindowPost, hfilter]
    rw [if_neg (by
      intro hempty
      exact hne (by simpa [List.isEmpty_iff] using hempty))]
  · intro hnil
    have hempty : ((replicas.filter fun r =>
        r.2.getD [] == ([] : List Nat)).map Prod.fst).isEmpty = true := by
      rw [hnil]
      rfl
    refine ⟨replicas.map fun r =>
      (r.1, mix randomness (mix proverId (mix r.1 (commOf (r.2.getD []))))), ?_, ?_⟩
    · rw [generateWindowPost, hfilter, if_pos hempty]
    · rw [verifyWindowPost, List.map_map]
      exact beq_self_eq_true _
  · intro ids msg h
    cases h

/-- Witness for C2 at concrete inputs: of three replicas, the two with
unreadable (`none`) or empty replica data are reported, and only those. -/
theorem claim_C2_window_post_faults_witness :
    generateWindowPost 5 7 [(1, some [2]), (9, none), (5, some [])]
      = .error (.faultySectors [9, 5]) :=
  (claim_C2_window_post_faults 5 7 [(1, some [2]), (9, none), (5, some [])]).1.1
    (by decide)

/-!
## Seal proof aggregation (spec-modelled)

`aggregate_seal_commit_proofs` / `verify_aggregate_seal_commit_proofs`
live in `api/seal.rs`, outside the sampled sources; only their test
(`tests/api.rs:1050-1063`) is sampled.  Modelled from the spec: a
versioned aggregation scheme whose version enters the transcript, so
that schemes are not cross-compatible.
-/

/-- The SnarkPack aggregation scheme versions. -/
inductive AggVersion where
  | v1
  | v2
deriving DecidableEq

/-- An aggregate seal proof: the scheme version bound into the artifact
together with the transcript digest of the aggregated inputs. -/
structure AggProof where
  version : AggVersion
  digest : Nat
deriving DecidableEq

/-- Transcript digest over the commitments, seeds and proof inputs. -/
def aggDigest (commRs seeds inputs : List Nat) : Nat :=
  mix (commRs.foldl mix 1) (mix (seeds.foldl mix 2) (inputs.foldl mix 3))

/-- Modelled from the spec: `aggregate_seal_commit_proofs` batches the
commit proofs with their seeds and commitments into one artifact under
the given scheme version. -/
def aggregateSealCommitProofs (commRs seeds proofs : List Nat)
    (v : AggVersion) : AggProof :=
  { version := v, digest := aggDigest commRs seeds proofs }

/-- Modelled from the spec: `verify_aggregate_seal_commit_proofs`
recomputes the versioned transcript and returns `Ok(false)` — a failure
value, not an error — on mismatch. -/
def verifyAggregateSealCommitProofs (p : AggProof) (commRs seeds inputs : List Nat)
    (v : AggVersion) : Except String Bool :=
  .ok (p.version == v && p.digest == aggDigest commRs seeds inputs)

/-- **C3**: an aggregate built under scheme version V1, checked with the
same commitments, seeds and inputs but version V2, verifies to
`Ok(false)` (not an error), and vice versa; checking with the version
it was built under yields `Ok(true)`. -/
theorem claim_C3_aggregate_version_mismatch (commRs seeds proofs : List Nat) :
    verifyAggregateSealCommitProofs
        (aggregateSealCommitProofs commRs seeds proofs .v1)
        commRs seeds proofs .v2 = .ok false
    ∧ verifyAggregateSealCommitProofs
        (aggregateSealCommitProofs commRs seeds proofs .v2)
        commRs seeds proofs .v1 = .ok false
    ∧ (∀ v, verifyAggregateSealCommitProofs
        (aggregateSealCommitProofs commRs seeds proofs v)
        commRs seeds proofs v = .ok true) := by
  refine ⟨rfl, rfl, ?_⟩
  intro v
  simp [verifyAggregateSealCommitProofs, aggregateSealCommitProofs]

/-!
## Resumable pre-commit phase 1 labeling (spec-modelled)

`seal_pre_commit_phase1` lives in `api/seal.rs`, outside the sampled
sources; only its test driver (`tests/api.rs:1263-1301`,
`run_resumable_seal`) is sampled.  Modelled from the spec: labeling is
deterministic in the replica id, existing valid layer stores are
detected via the cache layer and kept, and only missing layers are
recomputed.
-/

/-- Modelled from the spec: the deterministic content of label layer
`layerIdx` (one byte per node), a function of the replica id alone. -/
def labelLayer (rid layerIdx nodes : Nat) : List Nat :=
  (List.range nodes).map fun node => mix rid (mix layerIdx node) % 256

/-- Modelled from the spec: the CacheStore validity check applied to an
on-disk label layer (the length/size consistency gate). -/
def layerValid (nodes : Nat) (c : List Nat) : Bool := c.length == nodes

/-- Modelled from the spec: the labeling pass of `seal_pre_commit_phase1`
with resumability: for each layer index, an existing valid on-disk layer
is kept as is, and a missing or invalid one is recomputed
deterministically from the replica id. -/
def runPhase1Labels (rid nodes : Nat) (existing : List (Option (List Nat)))
    (numLayers : Nat) : List (List Nat) :=
  (List.range numLayers).map fun i =>
    match existing.getD i none with
    | some c => if layerValid nodes c then c else labelLayer rid i nodes
    | none => labelLayer rid i nodes

/-- **C4**: with two label layers, deleting exactly one of the two layer
stores and re-running the phase-1 labeling reconstructs both layers
byte-identical to those of an uninterrupted run; with zero layers
deleted, a repeat run leaves the existing valid layer stores unchanged. -/
theorem claim_C4_resumable_seal (rid nodes j : Nat) (hj : j < 2) :
    runPhase1Labels rid nodes
        (((runPhase1Labels rid nodes (List.replicate 2 none) 2).map some).set j none) 2
      = runPhase1Labels rid nodes (List.replicate 2 none) 2
    ∧ runPhase1Labels rid nodes
        ((runPhase1Labels rid nodes (List.replicate 2 none) 2).map some) 2
      = runPhase1Labels rid nodes (List.replicate 2 none) 2 := by
  have hval : ∀ i, layerValid nodes (labelLayer rid i nodes) = true := by
    intro i
    simp [layerValid, labelLayer]
  have hfull : runPhase1Labels rid nodes (List.replicate 2 none) 2
      = [labelLayer rid 0 nodes, labelLayer rid 1 nodes] := rfl
  rw [hfull]
  constructor
  · interval_cases j
    · show runPhase1Labels rid nodes [none, some (labelLayer rid 1 nodes)] 2 = _
      simp [runPhase1Labels, List.range_succ, List.getD_cons_zero,
        List.getD_cons_succ, hval]
    · show runPhase1Labels rid nodes [some (labelLayer rid 0 nodes), none] 2 = _
      simp [runPhase1Labels, List.range_succ, List.getD_cons_zero,
        List.getD_cons_succ, hval]
  · show runPhase1Labels rid nodes
        [some (labelLayer rid 0 nodes), some (labelLayer rid 1 nodes)] 2 = _
    simp [runPhase1Labels, List.range_succ, List.getD_cons_zero,
      List.getD_cons_succ, hval]

/-- Witness for C4 at concrete inputs: deleting layer 0 of a two-layer
sector and re-running reconstructs the uninterrupted result. -/
theorem claim_C4_resumable_seal_witness :
    runPhase1Labels 6 4
        (((runPhase1Labels 6 4 (List.replicate 2 none) 2).map some).set 0 none) 2
      = runPhase1Labels 6 4 (List.replicate 2 none) 2
    ∧ runPhase1Labels 6 4
        ((runPhase1Labels 6 4 (List.replicate 2 none) 2).map some) 2
      = runPhase1Labels 6 4 (List.replicate 2 none) 2 :=
  claim_C4_resumable_seal 6 4 0 (by decide)

/-!
## Tree store construction equivalence (spec-modelled)

`generate_tree_c` / `generate_tree_r_last` and `seal_pre_commit_phase2`
live in `api/seal.rs`, outside the sampled sources; only their test
(`tests/api.rs:2341-2360`, `create_seal` with `compare_trees`) is
sampled.  Modelled from the spec: phase 2 builds each arity-8 store over
the whole leaf stream; the standalone builders construct the same store
from base-tree shards, level by level per shard.
-/

/-- Arity-8 node hash through the opaque tree hasher. -/
def hash8 (l : List Nat) : Nat := l.foldl mix 7

/-- One tree level: hash each arity-8 chunk of the level below. -/
def levelUp : List Nat → List Nat
  | [] => []
  | a :: as => hash8 ((a :: as).take 8) :: levelUp ((a :: as).drop 8)
termination_by l => l.length
decreasing_by
  simp only [List.length_drop, List.length_cons]
  omega

/-- Modelled from the spec: the whole-input store construction used by
`seal_pre_commit_phase2`: all levels of a height-`h` arity-8 tree, from
the leaves upward. -/
def buildTree (h : Nat) (leaves : List Nat) : List (List Nat) :=
  match h with
  | 0 => [leaves]
  | h + 1 => leaves :: buildTree h (levelUp leaves)

/-- Modelled from the spec: the standalone sharded code path
(`generate_tree_c` / `generate_tree_r_last`): each base-tree shard is
processed independently and the per-level results are concatenated into
the store. -/
def buildTreeSharded (h : Nat) (parts : List (List Nat)) : List (List Nat) :=
  match h with
  | 0 => [parts.flatten]
  | h + 1 => parts.flatten :: buildTreeSharded h (parts.map levelUp)

/-- Modelled from the spec: `generate_tree_c`, building the tree_c store
from the label-column leaves split into base-tree shards. -/
def generateTreeC (h : Nat) (labelParts : List (List Nat)) : List (List Nat) :=
  buildTreeSharded h labelParts

/-- Modelled from the spec: `generate_tree_r_last`, building the
tree_r_last store from the replica leaves split into base-tree shards. -/
def generateTreeRLast (h : Nat) (replicaParts : List (List Nat)) : List (List Nat) :=
  buildTreeSharded h replicaParts

/-- Modelled from the spec: the tree construction performed inside
`seal_pre_commit_phase2`: tree_c over the whole label-column leaf
stream, tree_r_last over the whole replica leaf stream. -/
def sealPreCommitPhase2Trees (h : Nat) (labelLeaves replicaLeaves : List Nat) :
    List (List Nat) × List (List Nat) :=
  (buildTree h labelLeaves, buildTree h replicaLeaves)

theorem levelUp_append : ∀ l1 : List Nat, 8 ∣ l1.length →
    ∀ l2, levelUp (l1 ++ l2) = levelUp l1 ++ levelUp l2 := by
  intro l1
  induction l1 using levelUp.induct with
  | case1 =>
    intro _ l2
    simp [levelUp]
  | case2 a as ih =>
    intro hdvd l2
    have hge : 8 ≤ as.length + 1 := by
      simp only [List.length_cons] at hdvd
      omega
    rw [List.cons_append, levelUp]
    have htake : ((a :: as) ++ l2).take 8 = (a :: as).take 8 := by
      rw [List.take_append_of_le_length (by simp only [List.length_cons]; omega)]
    have hdrop : ((a :: as) ++ l2).drop 8 = (a :: as).drop 8 ++ l2 := by
      rw [List.drop_append_of_le_length (by simp only [List.length_cons]; omega)]
    rw [← List.cons_append, htake, hdrop]
    have hdvd2 : 8 ∣ ((a :: as).drop 8).length := by
      simp only [List.length_drop, List.length_cons] at hdvd ⊢
      omega
    rw [ih hdvd2 l2, levelUp]
    simp

theorem levelUp_length (l : List Nat) (h : 8 ∣ l.length) :
    (levelUp l).length = l.length / 8 := by
  induction l using levelUp.induct with
  | case1 => simp [levelUp]
  | case2 a as ih =>
    have hge : 8 ≤ as.length + 1 := by
      simp only [List.length_cons] at h
      omega
    have hdvd2 : 8 ∣ ((a :: as).drop 8).length := by
      simp only [List.length_drop, List.length_cons] at h ⊢
      omega
    rw [levelUp]
    simp only [List.length_cons, ih hdvd2, List.length_drop]
    omega

theorem levelUp_join (parts : List (List Nat)) (h : ∀ p ∈ parts, 8 ∣ p.length) :
    levelUp parts.flatten = (parts.map levelUp).flatten := by
  induction parts with
  | nil => simp [levelUp]
  | cons p ps ih =>
    rw [List.flatten_cons, List.map_cons, List.flatten_cons]
    rw [levelUp_append p (h p (by simp)) ps.flatten]
    rw [ih fun q hq => h q (by simp [hq])]

theorem buildTreeSharded_eq (h : Nat) : ∀ parts : List (List Nat),
    (∀ p ∈ parts, p.length = 8 ^ h) →
    buildTreeSharded h parts = buildTree h parts.flatten := by
  induction h with
  | zero =>
    intro parts _
    rfl
  | succ h ih =>
    intro parts hp
    have hdvd : ∀ p ∈ parts, 8 ∣ p.length := by
      intro p hmem
      rw [hp p hmem, pow_succ]
      exact ⟨8 ^ h, by ring⟩
    have hlen : ∀ q ∈ parts.map levelUp, q.length = 8 ^ h := by
      intro q hq
      simp only [List.mem_map] at hq
      obtain ⟨p, hpmem, rfl⟩ := hq
      rw [levelUp_length p (hdvd p hpmem), hp p hpmem, pow_succ]
      omega
    rw [buildTreeSharded, buildTree, ih (parts.map levelUp) hlen,
      ← levelUp_join parts hdvd]

/-- **C5**: for the same sealed-sector inputs, the standalone builders
`generate_tree_c` and `generate_tree_r_last` produce store levels equal,
element for element, to the tree_c and tree_r_last stores produced by
the full `seal_pre_commit_phase2` pass over the whole leaf streams. -/
theorem claim_C5_tree_equivalence (h : Nat) (labelParts replicaParts : List (List Nat))
    (hc : ∀ p ∈ labelParts, p.length = 8 ^ h)
    (hr : ∀ p ∈ replicaParts, p.length = 8 ^ h) :
    generateTreeC h labelParts
      = (sealPreCommitPhase2Trees h labelParts.flatten replicaParts.flatten).1
    ∧ generateTreeRLast h replicaParts
      = (sealPreCommitPhase2Trees h labelParts.flatten replicaParts.flatten).2 :=
  ⟨buildTreeSharded_eq h labelParts hc, buildTreeSharded_eq h replicaParts hr⟩

/-- Witness for C5 at concrete inputs: height-1 trees over one base-tree
shard of eight leaves each. -/
theorem claim_C5_tree_equivalence_witness :
    generateTreeC 1 [[0, 1, 2, 3, 4, 5, 6, 7]]
      = (sealPreCommitPhase2Trees 1 [[0, 1, 2, 3, 4, 5, 6, 7]].flatten
          [[1, 1, 1, 1, 1, 1, 1, 1]].flatten).1
    ∧ generateTreeRLast 1 [[1, 1, 1, 1, 1, 1, 1, 1]]
      = (sealPreCommitPhase2Trees 1 [[0, 1, 2, 3, 4, 5, 6, 7]].flatten
          [[1, 1, 1, 1, 1, 1, 1, 1]].flatten).2 :=
  claim_C5_tree_equivalence 1 [[0, 1, 2, 3, 4, 5, 6, 7]] [[1, 1, 1, 1, 1, 1, 1, 1]]
    (by decide) (by decide)
